import Mathlib

/-!
Verification of the restful-rtc framing, chunking, reassembly and
request/response correlation core.

The Go sources embedded here are `gateway_peerjs.go` (gateway role:
`sendSplitPacket`, the `conn.On("data", ...)` reassembly handler,
`httpHandler` with the `responseChannels` map) and `endpoint_peerjs.go`
(endpoint role: the mirrored reassembly handler, `handleAssembledRequest`,
`executeRequest`, `errorResponse`).

Modelling conventions:
- byte slices are `List Nat` (one entry per byte);
- Go `int` fields that can hold the -1 sentinel (`lastSequence`,
  `Packet.Sequence`) are `Int`;
- `sync.Map` values are association lists keyed by the id string;
- JSON (un)marshalling of the nested logical messages is abstracted into
  decoder/encoder parameters: the handlers receive the already-decoded
  `Option Packet` (`none` = `json.Unmarshal` failed) and take the decoder
  for the reassembled logical message as an argument.
-/

namespace RestfulRtc

/-- `MaxChunkSize = 16 * 1024` from the shared constants block. -/
def MaxChunkSize : Nat := 16 * 1024

/-- `PacketTypeRequest = "request"`. -/
def PacketTypeRequest : String := "request"

/-- `PacketTypeResponse = "response"`. -/
def PacketTypeResponse : String := "response"

/-- The wire unit `Packet` of the Go sources: id of the full
request/response, "request"/"response" type tag, sequence number,
`is_last` flag and the payload slice. -/
structure Packet where
  id : String
  type : String
  sequence : Int
  isLast : Bool
  payload : List Nat
deriving DecidableEq, Repr

/-- `ForwardedRequest` from the Go sources (headers as a multimap). -/
structure ForwardedRequest where
  id : String
  method : String
  path : String
  query : String
  headers : List (String × List String)
  body : List Nat
deriving DecidableEq, Repr

/-- `ForwardedResponse` from the Go sources. -/
structure ForwardedResponse where
  id : String
  statusCode : Nat
  headers : List (String × List String)
  body : List Nat
deriving DecidableEq, Repr

/-- Bytes of an ASCII string literal (Go `[]byte(message)`). -/
def asciiBytes (s : String) : List Nat := s.toList.map Char.toNat

/-! ## Splitter (`sendSplitPacket`)

The Go loop `for i := 0; ; i++` slices `data[i*MaxChunkSize : min(...)]`;
the iteration with `start + MaxChunkSize >= len(data)` takes the whole
remainder, marks `is_last` and breaks.  `splitFrom id type i data` is that
loop started at counter `i` with `data` the not-yet-sent suffix. -/
def splitFrom (requestID packetType : String) (i : Nat) (data : List Nat) :
    List Packet :=
  if h : data.length ≤ MaxChunkSize then
    [⟨requestID, packetType, (i : Int), true, data⟩]
  else
    ⟨requestID, packetType, (i : Int), false, data.take MaxChunkSize⟩ ::
      splitFrom requestID packetType (i + 1) (data.drop MaxChunkSize)
termination_by data.length
decreasing_by
  simp only [List.length_drop, MaxChunkSize] at *
  omega

/-- `sendSplitPacket` as the ordered list of packets it hands to
`dc.Send`, in send order. -/
def sendSplitPacket (requestID packetType : String) (data : List Nat) :
    List Packet :=
  splitFrom requestID packetType 0 data

/-! ## Reassembler state (`ReassemblyBuffer`) -/

/-- `ReassemblyBuffer`: the `packets map[int][]byte` as an association
list in insertion order, and `lastSequence` with the `-1` sentinel. -/
structure ReassemblyBuffer where
  packets : List (Int × List Nat)
  lastSequence : Int
deriving DecidableEq, Repr

/-- `NewReassemblyBuffer()`. -/
def NewReassemblyBuffer : ReassemblyBuffer := ⟨[], -1⟩

/-- `rb.packets[seq] = payload`: Go map store; an existing key is
overwritten in place, a new key is appended. -/
def insertPacket (seq : Int) (payload : List Nat) :
    List (Int × List Nat) → List (Int × List Nat)
  | [] => [(seq, payload)]
  | (k, v) :: rest =>
      if k = seq then (seq, payload) :: rest
      else (k, v) :: insertPacket seq payload rest

/-- Go map read `rb.packets[k]` restricted to present keys. -/
def lookupSeq (k : Int) : List (Int × List Nat) → Option (List Nat)
  | [] => none
  | (a, v) :: rest => if a = k then some v else lookupSeq k rest

/-- The completion block of both data handlers: collect the keys of
`rb.packets`, `sort.Ints` them ascending, and concatenate the payloads in
that order into one buffer. -/
def reassemble (ps : List (Int × List Nat)) : List Nat :=
  (List.insertionSort (· ≤ ·) (ps.map Prod.fst)).flatMap
    (fun k => (lookupSeq k ps).getD [])

/-- Association-list read of a `sync.Map` keyed by id. -/
def lookupBuf (id : String) : List (String × ReassemblyBuffer) →
    Option ReassemblyBuffer
  | [] => none
  | (a, v) :: rest => if a = id then some v else lookupBuf id rest

/-- Store under `id` (overwrite an existing entry, else append). -/
def insertBuf (id : String) (rb : ReassemblyBuffer) :
    List (String × ReassemblyBuffer) → List (String × ReassemblyBuffer)
  | [] => [(id, rb)]
  | (a, v) :: rest =>
      if a = id then (id, rb) :: rest
      else (a, v) :: insertBuf id rb rest

/-- `sync.Map.Delete` keyed by id. -/
def eraseBuf (id : String) : List (String × ReassemblyBuffer) →
    List (String × ReassemblyBuffer)
  | [] => []
  | (a, v) :: rest => if a = id then rest else (a, v) :: eraseBuf id rest

/-- One inbound frame through the shared reassembly core of both data
handlers (gateway lines: `LoadOrStore`, payload store, `IsLast` update,
completeness test, and on completion the sorted concatenation plus
`Delete`; endpoint is identical with its `requestBuffers` map).  The type
guard (`packet.Type != expected → return`) is included.  Returns the
updated id→buffer map and the reassembled logical-message bytes when this
frame completed the message. -/
def reassemblerStep (expected : String) (p : Packet)
    (bufs : List (String × ReassemblyBuffer)) :
    List (String × ReassemblyBuffer) × Option (List Nat) :=
  if p.type ≠ expected then (bufs, none)
  else
    let rb := (lookupBuf p.id bufs).getD NewReassemblyBuffer
    let rb1 : ReassemblyBuffer :=
      ⟨insertPacket p.sequence p.payload rb.packets,
       if p.isLast then p.sequence else rb.lastSequence⟩
    if rb1.lastSequence ≠ -1 ∧
        (rb1.packets.length : Int) = rb1.lastSequence + 1 then
      (eraseBuf p.id bufs, some (reassemble rb1.packets))
    else
      (insertBuf p.id rb1 bufs, none)

/-- Feed a list of frames (in arrival order) through the reassembly core,
collecting every completed logical message in completion order. -/
def runReassembler (expected : String) :
    List Packet → List (String × ReassemblyBuffer) →
    List (String × ReassemblyBuffer) × List (List Nat)
  | [], bufs => (bufs, [])
  | p :: rest, bufs =>
      let (bufs1, out) := reassemblerStep expected p bufs
      let (bufs2, outs) := runReassembler expected rest bufs1
      (bufs2, out.toList ++ outs)

end RestfulRtc

namespace RestfulRtc

/-! ## Splitter lemmas -/

theorem splitFrom_last {I T : String} {i : Nat} {data : List Nat}
    (h : data.length ≤ MaxChunkSize) :
    splitFrom I T i data = [⟨I, T, (i : Int), true, data⟩] := by
  rw [splitFrom.eq_def, dif_pos h]

theorem splitFrom_cons {I T : String} {i : Nat} {data : List Nat}
    (h : ¬ data.length ≤ MaxChunkSize) :
    splitFrom I T i data =
      ⟨I, T, (i : Int), false, data.take MaxChunkSize⟩ ::
        splitFrom I T (i + 1) (data.drop MaxChunkSize) := by
  rw [splitFrom.eq_def, dif_neg h]

theorem splitFrom_ne_nil (I T : String) (i : Nat) (data : List Nat) :
    splitFrom I T i data ≠ [] := by
  rw [splitFrom.eq_def]
  split <;> simp

theorem length_splitFrom_pos (I T : String) (i : Nat) (data : List Nat) :
    0 < (splitFrom I T i data).length := by
  have := splitFrom_ne_nil I T i data
  cases hs : splitFrom I T i data with
  | nil => exact absurd hs this
  | cons a l => simp

theorem mem_splitFrom_id_type (I T : String) (i : Nat) (data : List Nat) :
    ∀ g ∈ splitFrom I T i data, g.id = I ∧ g.type = T := by
  induction i, data using splitFrom.induct I T with
  | case1 i data h =>
      rw [splitFrom_last h]
      intro g hg
      simp only [List.mem_singleton] at hg
      subst hg
      exact ⟨rfl, rfl⟩
  | case2 i data h ih =>
      rw [splitFrom_cons h]
      intro g hg
      rcases List.mem_cons.mp hg with hg | hg
      · subst hg; exact ⟨rfl, rfl⟩
      · exact ih g hg

theorem flatten_payload_splitFrom (I T : String) (i : Nat) (data : List Nat) :
    ((splitFrom I T i data).map Packet.payload).flatten = data := by
  induction i, data using splitFrom.induct I T with
  | case1 i data h => rw [splitFrom_last h]; simp
  | case2 i data h ih =>
      rw [splitFrom_cons h]
      simp only [List.map_cons, List.flatten_cons, ih]
      exact List.take_append_drop _ _

theorem payload_length_le_splitFrom (I T : String) (i : Nat) (data : List Nat) :
    ∀ g ∈ splitFrom I T i data, g.payload.length ≤ MaxChunkSize := by
  induction i, data using splitFrom.induct I T with
  | case1 i data h =>
      rw [splitFrom_last h]
      intro g hg
      simp only [List.mem_singleton] at hg
      subst hg
      exact h
  | case2 i data h ih =>
      rw [splitFrom_cons h]
      intro g hg
      rcases List.mem_cons.mp hg with hg | hg
      · subst hg; simp
      · exact ih g hg

theorem payload_ne_nil_splitFrom (I T : String) (i : Nat) (data : List Nat) :
    data ≠ [] → ∀ g ∈ splitFrom I T i data, g.payload ≠ [] := by
  induction i, data using splitFrom.induct I T with
  | case1 i data h =>
      intro hd
      rw [splitFrom_last h]
      intro g hg
      simp only [List.mem_singleton] at hg
      subst hg
      exact hd
  | case2 i data h ih =>
      intro _
      rw [splitFrom_cons h]
      intro g hg
      have hM : MaxChunkSize = 16384 := rfl
      rcases List.mem_cons.mp hg with hg | hg
      · subst hg
        simp only [ne_eq, ← List.length_eq_zero, List.length_take]
        omega
      · refine ih ?_ g hg
        simp only [ne_eq, ← List.length_eq_zero, List.length_drop]
        omega

theorem length_splitFrom (I T : String) (i : Nat) (data : List Nat) :
    (splitFrom I T i data).length =
      if data.length = 0 then 1
      else (data.length + MaxChunkSize - 1) / MaxChunkSize := by
  induction i, data using splitFrom.induct I T with
  | case1 i data h =>
      rw [splitFrom_last h]
      simp only [MaxChunkSize] at h ⊢
      by_cases h0 : data.length = 0
      · simp [h0]
      · rw [if_neg h0]
        simp only [List.length_singleton]
        omega
  | case2 i data h ih =>
      rw [splitFrom_cons h]
      simp only [List.length_cons, ih, List.length_drop]
      simp only [MaxChunkSize] at h ⊢
      by_cases h0 : data.length - 16384 = 0
      · omega
      · rw [if_neg h0, if_neg (by omega : ¬ data.length = 0)]
        omega

theorem map_sequence_splitFrom (I T : String) (i : Nat) (data : List Nat) :
    (splitFrom I T i data).map Packet.sequence =
      (List.range (splitFrom I T i data).length).map
        (fun j => ((i + j : Nat) : Int)) := by
  induction i, data using splitFrom.induct I T with
  | case1 i data h =>
      rw [splitFrom_last h]
      simp [List.range_succ]
  | case2 i data h ih =>
      rw [splitFrom_cons h]
      simp only [List.map_cons, List.length_cons, ih]
      rw [List.range_succ_eq_map]
      simp only [List.map_cons, Nat.add_zero, List.map_map]
      congr 1
      apply List.map_congr_left
      intro j _
      simp only [Function.comp_apply]
      congr 1
      omega

theorem map_isLast_splitFrom (I T : String) (i : Nat) (data : List Nat) :
    (splitFrom I T i data).map Packet.isLast =
      (List.range (splitFrom I T i data).length).map
        (fun j => decide (j = (splitFrom I T i data).length - 1)) := by
  induction i, data using splitFrom.induct I T with
  | case1 i data h =>
      rw [splitFrom_last h]
      simp [List.range_succ]
  | case2 i data h ih =>
      have hpos := length_splitFrom_pos I T (i + 1) (data.drop MaxChunkSize)
      rw [splitFrom_cons h]
      simp only [List.map_cons, List.length_cons, ih]
      rw [List.range_succ_eq_map]
      simp only [List.map_cons, List.map_map]
      rw [List.cons_eq_cons]
      refine ⟨?_, ?_⟩
      · symm
        simp only [decide_eq_false_iff_not]
        omega
      · apply List.map_congr_left
        intro j _
        simp only [Function.comp_apply]
        apply decide_eq_decide.mpr
        omega

end RestfulRtc

namespace RestfulRtc

/-! ## Reassembler invariant machinery

`mkBuffer S` is the `ReassemblyBuffer` obtained after the data handler has
processed the frames of `S` in that order (for frames with pairwise
distinct sequence numbers): the payload map holds the `(sequence,
payload)` pairs in arrival order, and `lastSequence` is the sequence of
the `is_last` frame if one has arrived, else the `-1` sentinel. -/

/-- The `(sequence, payload)` entry a frame contributes to `rb.packets`. -/
def framePair (g : Packet) : Int × List Nat := (g.sequence, g.payload)

/-- `lastSequence` after folding the frames of `S` in arrival order. -/
def lastOf (S : List Packet) : Int :=
  S.foldl (fun acc g => if g.isLast then g.sequence else acc) (-1)

/-- Buffer state after processing the frames of `S` in order. -/
def mkBuffer (S : List Packet) : ReassemblyBuffer := ⟨S.map framePair, lastOf S⟩

/-- The whole id→buffer map after the frames of `S` (all carrying id `I`)
have been processed: empty before the first frame, one live buffer
afterwards. -/
def bufsOf (I : String) (S : List Packet) :
    List (String × ReassemblyBuffer) :=
  if S = [] then [] else [(I, mkBuffer S)]

theorem insertPacket_append (k : Int) (v : List Nat)
    (ps : List (Int × List Nat)) (hk : k ∉ ps.map Prod.fst) :
    insertPacket k v ps = ps ++ [(k, v)] := by
  induction ps with
  | nil => rfl
  | cons a rest ih =>
      obtain ⟨a1, a2⟩ := a
      simp only [List.map_cons, List.mem_cons] at hk
      push_neg at hk
      rw [insertPacket, if_neg (by exact fun h => hk.1 h.symm)]
      simp [ih hk.2]

theorem lastOf_append_singleton (S : List Packet) (g : Packet) :
    lastOf (S ++ [g]) = if g.isLast then g.sequence else lastOf S := by
  simp [lastOf, List.foldl_append]

theorem foldl_lastOf_eq (K : Int) (S : List Packet)
    (hK : ∀ g ∈ S, g.isLast = true → g.sequence = K) :
    ∀ a : Int,
      S.foldl (fun acc g => if g.isLast then g.sequence else acc) a
        = if S.any Packet.isLast then K else a := by
  induction S with
  | nil => intro a; simp
  | cons g S ih =>
      intro a
      simp only [List.foldl_cons, List.any_cons]
      by_cases hg : g.isLast
      · rw [if_pos hg]
        have hKS : ∀ g' ∈ S, g'.isLast = true → g'.sequence = K := by
          intro g' hg' h'
          exact hK g' (List.mem_cons_of_mem _ hg') h'
        rw [ih hKS g.sequence]
        have : g.sequence = K := hK g (List.mem_cons_self _ _) hg
        simp [hg, this]
      · rw [if_neg hg]
        have hKS : ∀ g' ∈ S, g'.isLast = true → g'.sequence = K := by
          intro g' hg' h'
          exact hK g' (List.mem_cons_of_mem _ hg') h'
        rw [ih hKS a]
        have : g.isLast = false := by simpa using hg
        simp [this]

theorem lastOf_eq (K : Int) (S : List Packet)
    (hK : ∀ g ∈ S, g.isLast = true → g.sequence = K) :
    lastOf S = if S.any Packet.isLast then K else -1 :=
  foldl_lastOf_eq K S hK (-1)

theorem lookupSeq_of_mem (k : Int) (v : List Nat)
    (ps : List (Int × List Nat)) (hnd : (ps.map Prod.fst).Nodup)
    (hm : (k, v) ∈ ps) : lookupSeq k ps = some v := by
  induction ps with
  | nil => cases hm
  | cons a rest ih =>
      obtain ⟨a1, a2⟩ := a
      simp only [List.map_cons, List.nodup_cons] at hnd
      rcases List.mem_cons.mp hm with hm | hm
      · obtain ⟨h1, h2⟩ := Prod.mk.injEq .. ▸ hm
        rw [lookupSeq, if_pos (by simp [Prod.ext_iff] at hm; exact hm.1.symm)]
        simp [Prod.ext_iff] at hm
        simp [hm.2]
      · have : a1 ≠ k := by
          intro h
          subst h
          exact hnd.1 (by simpa using List.mem_map_of_mem Prod.fst hm)
        rw [lookupSeq, if_neg this]
        exact ih hnd.2 hm

theorem flatMap_getD_range (cs : List (List Nat)) :
    (List.range cs.length).flatMap (fun j => cs.getD j []) = cs.flatten := by
  induction cs with
  | nil => simp
  | cons c cs ih =>
      simp only [List.length_cons, List.range_succ_eq_map, List.flatMap_cons,
        List.flatMap_map]
      simp only [List.getD_cons_zero, List.getD_cons_succ, List.flatten_cons]
      rw [ih]

end RestfulRtc

namespace RestfulRtc

/-! ## Frame-level facts about the splitter output -/

theorem sequence_getElem_sendSplit (I T : String) (p : List Nat) (j : Nat)
    (hj : j < (sendSplitPacket I T p).length) :
    ((sendSplitPacket I T p)[j]).sequence = (j : Int) := by
  simp only [sendSplitPacket] at hj ⊢
  have h := map_sequence_splitFrom I T 0 p
  have hj1 : j < (List.map Packet.sequence (splitFrom I T 0 p)).length := by
    simpa using hj
  have hj2 : j < ((List.range (splitFrom I T 0 p).length).map
      (fun j => ((0 + j : Nat) : Int))).length := by
    simpa using hj
  have h2 := congrArg (fun l : List Int => l.getD j 0) h
  simp only [List.getD_eq_getElem _ _ hj1, List.getD_eq_getElem _ _ hj2,
    List.getElem_map, List.getElem_range] at h2
  simpa using h2

theorem isLast_getElem_sendSplit (I T : String) (p : List Nat) (j : Nat)
    (hj : j < (sendSplitPacket I T p).length) :
    ((sendSplitPacket I T p)[j]).isLast
      = decide (j = (sendSplitPacket I T p).length - 1) := by
  simp only [sendSplitPacket] at hj ⊢
  have h := map_isLast_splitFrom I T 0 p
  have hj1 : j < (List.map Packet.isLast (splitFrom I T 0 p)).length := by
    simpa using hj
  have hj2 : j < ((List.range (splitFrom I T 0 p).length).map
      (fun j => decide (j = (splitFrom I T 0 p).length - 1))).length := by
    simpa using hj
  have h2 := congrArg (fun l : List Bool => l.getD j false) h
  simp only [List.getD_eq_getElem _ _ hj1, List.getD_eq_getElem _ _ hj2,
    List.getElem_map, List.getElem_range] at h2
  exact h2

theorem payload_getD_sendSplit (I T : String) (p : List Nat) (j : Nat)
    (hj : j < (sendSplitPacket I T p).length) :
    ((sendSplitPacket I T p).map Packet.payload).getD j []
      = ((sendSplitPacket I T p)[j]).payload := by
  rw [List.getD_eq_getElem _ _ (by simpa using hj), List.getElem_map]

theorem mem_sendSplit_isLast_sequence (I T : String) (p : List Nat) :
    ∀ g ∈ sendSplitPacket I T p, g.isLast = true →
      g.sequence = (((sendSplitPacket I T p).length - 1 : Nat) : Int) := by
  intro g hg hlast
  obtain ⟨j, hj, rfl⟩ := List.mem_iff_getElem.mp hg
  have h := isLast_getElem_sendSplit I T p j hj
  rw [hlast] at h
  have hj' : j = (sendSplitPacket I T p).length - 1 := by
    simpa using h.symm
  rw [sequence_getElem_sendSplit I T p j hj, hj']

theorem exists_isLast_sendSplit (I T : String) (p : List Nat) :
    ∃ g ∈ sendSplitPacket I T p, g.isLast = true := by
  have hpos : 0 < (sendSplitPacket I T p).length := by
    simpa [sendSplitPacket] using length_splitFrom_pos I T 0 p
  have hlt : (sendSplitPacket I T p).length - 1
      < (sendSplitPacket I T p).length := by omega
  refine ⟨(sendSplitPacket I T p).get
      ⟨(sendSplitPacket I T p).length - 1, hlt⟩, List.get_mem _ _ _, ?_⟩
  rw [List.get_eq_getElem, isLast_getElem_sendSplit]
  simp

theorem map_sequence_sendSplit (I T : String) (p : List Nat) :
    (sendSplitPacket I T p).map Packet.sequence =
      (List.range (sendSplitPacket I T p).length).map (fun (j : Nat) => (j : Int)) := by
  simp only [sendSplitPacket]
  rw [map_sequence_splitFrom]
  apply List.map_congr_left
  intro j _
  norm_num

theorem nodup_map_sequence_sendSplit (I T : String) (p : List Nat) :
    ((sendSplitPacket I T p).map Packet.sequence).Nodup := by
  rw [map_sequence_sendSplit]
  refine List.Nodup.map ?_ (List.nodup_range _)
  intro a b hab
  simpa using hab

theorem mem_sendSplit_id_type (I T : String) (p : List Nat) :
    ∀ g ∈ sendSplitPacket I T p, g.id = I ∧ g.type = T := by
  simpa [sendSplitPacket] using mem_splitFrom_id_type I T 0 p

/-! ## Reassembly of a full permutation of the splitter output -/

theorem reassemble_of_perm (I T : String) (p : List Nat) (l : List Packet)
    (hl : l.Perm (sendSplitPacket I T p)) :
    reassemble (l.map framePair) = p := by
  have hkeys : (l.map framePair).map Prod.fst = l.map Packet.sequence := by
    simp [framePair]
  have hseqperm : (l.map Packet.sequence).Perm
      ((List.range (sendSplitPacket I T p).length).map (fun (j : Nat) => (j : Int))) := by
    have h := hl.map Packet.sequence
    rwa [map_sequence_sendSplit] at h
  have hndtarget :
      (((List.range (sendSplitPacket I T p).length).map
        (fun (j : Nat) => (j : Int)))).Nodup :=
    List.Nodup.map (fun a b hab => by simpa using hab) (List.nodup_range _)
  have hnd : (l.map Packet.sequence).Nodup := hseqperm.nodup_iff.mpr hndtarget
  have hsorted_target : List.Sorted (· ≤ ·)
      ((List.range (sendSplitPacket I T p).length).map (fun (j : Nat) => (j : Int))) := by
    apply List.Pairwise.map
    · intro a b hab
      exact_mod_cast Nat.le_of_lt hab
    · exact List.pairwise_lt_range _
  have hsort : List.insertionSort (· ≤ ·) ((l.map framePair).map Prod.fst)
      = (List.range (sendSplitPacket I T p).length).map (fun (j : Nat) => (j : Int)) := by
    exact List.eq_of_perm_of_sorted
      (by rw [hkeys]; exact (List.perm_insertionSort _ _).trans hseqperm)
      (List.sorted_insertionSort _ _) hsorted_target
  have hlook : ∀ j < (sendSplitPacket I T p).length,
      lookupSeq ((j : Int)) (l.map framePair)
        = some (((sendSplitPacket I T p).map Packet.payload).getD j []) := by
    intro j hj
    apply lookupSeq_of_mem
    · rw [hkeys]; exact hnd
    · refine ((hl.map framePair).mem_iff).mpr ?_
      refine List.mem_iff_getElem.mpr ⟨j, by simpa using hj, ?_⟩
      rw [List.getElem_map]
      rw [payload_getD_sendSplit I T p j hj]
      rw [framePair, sequence_getElem_sendSplit I T p j hj]
  rw [reassemble, hsort, List.flatMap_map, List.flatMap_def]
  have hcongr : (List.range (sendSplitPacket I T p).length).map
        (fun (j : Nat) => (lookupSeq ((j : Int)) (l.map framePair)).getD [])
      = (List.range (sendSplitPacket I T p).length).map
        (fun (j : Nat) =>
          ((sendSplitPacket I T p).map Packet.payload).getD j []) := by
    apply List.map_congr_left
    intro j hj
    rw [hlook j (List.mem_range.mp hj)]
    rfl
  rw [hcongr, ← List.flatMap_def]
  have hlen : ((sendSplitPacket I T p).map Packet.payload).length
      = (sendSplitPacket I T p).length := by simp
  rw [← hlen, flatMap_getD_range]
  simpa [sendSplitPacket] using flatten_payload_splitFrom I T 0 p

end RestfulRtc

namespace RestfulRtc

/-! ## Single-step lemmas for the reassembly handler -/

theorem lookupBuf_bufsOf (I : String) (S : List Packet) :
    (lookupBuf I (bufsOf I S)).getD NewReassemblyBuffer = mkBuffer S := by
  by_cases hS : S = []
  · subst hS
    rfl
  · simp [bufsOf, hS, lookupBuf]

theorem insertBuf_bufsOf (I : String) (S : List Packet)
    (rb : ReassemblyBuffer) : insertBuf I rb (bufsOf I S) = [(I, rb)] := by
  by_cases hS : S = []
  · subst hS
    rfl
  · simp [bufsOf, hS, insertBuf]

theorem eraseBuf_bufsOf (I : String) (S : List Packet) :
    eraseBuf I (bufsOf I S) = [] := by
  by_cases hS : S = []
  · subst hS
    rfl
  · simp [bufsOf, hS, eraseBuf]

theorem sequence_not_mem_of_perm (I T : String) (p : List Nat)
    (S : List Packet) (f : Packet) (rest : List Packet)
    (hperm : (S ++ f :: rest).Perm (sendSplitPacket I T p)) :
    f.sequence ∉ S.map Packet.sequence := by
  have hnd : ((S ++ f :: rest).map Packet.sequence).Nodup :=
    (hperm.map Packet.sequence).nodup_iff.mpr
      (nodup_map_sequence_sendSplit I T p)
  rw [List.map_append] at hnd
  have hdisj := List.disjoint_of_nodup_append hnd
  intro hmem
  exact hdisj hmem (by simp)

theorem insertPacket_mkBuffer (S : List Packet) (f : Packet)
    (hnm : f.sequence ∉ S.map Packet.sequence) :
    insertPacket f.sequence f.payload (mkBuffer S).packets
      = (S ++ [f]).map framePair := by
  have h0 : (mkBuffer S).packets = S.map framePair := rfl
  rw [h0, insertPacket_append]
  · simp [framePair]
  · simpa [List.map_map, Function.comp, framePair] using hnm

theorem lastSeq_mkBuffer (S : List Packet) (f : Packet) :
    (if f.isLast = true then f.sequence else (mkBuffer S).lastSequence)
      = lastOf (S ++ [f]) := by
  rw [lastOf_append_singleton]
  rfl

theorem reassemblerStep_mid (I T : String) (p : List Nat)
    (S : List Packet) (f : Packet) (rest : List Packet)
    (hperm : (S ++ f :: rest).Perm (sendSplitPacket I T p))
    (hrest : rest ≠ []) :
    reassemblerStep T f (bufsOf I S) = (bufsOf I (S ++ [f]), none) := by
  have hf_mem : f ∈ sendSplitPacket I T p := hperm.mem_iff.mp (by simp)
  obtain ⟨hfid, hft⟩ := mem_sendSplit_id_type I T p f hf_mem
  have hnm := sequence_not_mem_of_perm I T p S f rest hperm
  rw [reassemblerStep, if_neg (by simp [hft])]
  simp only [hfid, lookupBuf_bufsOf]
  rw [insertPacket_mkBuffer S f hnm, lastSeq_mkBuffer S f]
  have hsub : ∀ g ∈ S ++ [f], g ∈ sendSplitPacket I T p := by
    intro g hg
    refine hperm.mem_iff.mp ?_
    rcases List.mem_append.mp hg with hg | hg
    · exact List.mem_append.mpr (Or.inl hg)
    · simp only [List.mem_singleton] at hg
      subst hg
      simp
  have hlast : lastOf (S ++ [f]) =
      if (S ++ [f]).any Packet.isLast
      then (((sendSplitPacket I T p).length - 1 : Nat) : Int) else -1 :=
    lastOf_eq _ _ (fun g hg hl =>
      mem_sendSplit_isLast_sequence I T p g (hsub g hg) hl)
  have hlen : S.length + 1 + rest.length = (sendSplitPacket I T p).length := by
    have h := hperm.length_eq
    simp at h
    omega
  have hrestlen : 0 < rest.length := List.length_pos.mpr hrest
  have hcond : ¬ (lastOf (S ++ [f]) ≠ -1 ∧
      (((S ++ [f]).map framePair).length : Int) = lastOf (S ++ [f]) + 1) := by
    rw [hlast]
    by_cases hany : (S ++ [f]).any Packet.isLast
    · rw [if_pos hany]
      intro hc
      have h2 := hc.2
      simp only [List.length_map, List.length_append,
        List.length_singleton] at h2
      omega
    · rw [if_neg hany]
      intro hc
      exact hc.1 rfl
  rw [if_neg hcond, insertBuf_bufsOf]
  simp [bufsOf, mkBuffer]

theorem reassemblerStep_final (I T : String) (p : List Nat)
    (S : List Packet) (f : Packet)
    (hperm : (S ++ [f]).Perm (sendSplitPacket I T p)) :
    reassemblerStep T f (bufsOf I S) = ([], some p) := by
  have hf_mem : f ∈ sendSplitPacket I T p := hperm.mem_iff.mp (by simp)
  obtain ⟨hfid, hft⟩ := mem_sendSplit_id_type I T p f hf_mem
  have hnm := sequence_not_mem_of_perm I T p S f [] hperm
  rw [reassemblerStep, if_neg (by simp [hft])]
  simp only [hfid, lookupBuf_bufsOf]
  rw [insertPacket_mkBuffer S f hnm, lastSeq_mkBuffer S f]
  have hsub : ∀ g ∈ S ++ [f], g ∈ sendSplitPacket I T p := by
    intro g hg
    exact hperm.mem_iff.mp hg
  have hlast : lastOf (S ++ [f]) =
      if (S ++ [f]).any Packet.isLast
      then (((sendSplitPacket I T p).length - 1 : Nat) : Int) else -1 :=
    lastOf_eq _ _ (fun g hg hl =>
      mem_sendSplit_isLast_sequence I T p g (hsub g hg) hl)
  obtain ⟨glast, hgmem, hglast⟩ := exists_isLast_sendSplit I T p
  have hany : (S ++ [f]).any Packet.isLast = true :=
    List.any_eq_true.mpr ⟨glast, hperm.mem_iff.mpr hgmem, hglast⟩
  have hpos : 0 < (sendSplitPacket I T p).length := by
    simpa [sendSplitPacket] using length_splitFrom_pos I T 0 p
  have hlen : S.length + 1 = (sendSplitPacket I T p).length := by
    have h := hperm.length_eq
    simp at h
    omega
  have hcond : lastOf (S ++ [f]) ≠ -1 ∧
      (((S ++ [f]).map framePair).length : Int) = lastOf (S ++ [f]) + 1 := by
    rw [hlast, if_pos hany]
    constructor
    · omega
    · simp only [List.length_map, List.length_append, List.length_singleton]
      omega
  rw [if_pos hcond, eraseBuf_bufsOf, reassemble_of_perm I T p (S ++ [f]) hperm]

end RestfulRtc

namespace RestfulRtc

/-! ## Multi-frame runs of the reassembly handler -/

theorem bufsOf_nil (I : String) : bufsOf I [] = [] := rfl

theorem runReassembler_append (T : String) (l1 l2 : List Packet)
    (bufs : List (String × ReassemblyBuffer)) :
    runReassembler T (l1 ++ l2) bufs =
      ((runReassembler T l2 (runReassembler T l1 bufs).1).1,
        (runReassembler T l1 bufs).2
          ++ (runReassembler T l2 (runReassembler T l1 bufs).1).2) := by
  induction l1 generalizing bufs with
  | nil => simp [runReassembler]
  | cons f l1 ih =>
      rcases hstep : reassemblerStep T f bufs with ⟨bufs1, out⟩
      simp only [List.cons_append, runReassembler, hstep, List.append_eq]
      rw [ih]
      simp [List.append_assoc]

theorem runReassembler_mid (I T : String) (p : List Nat) :
    ∀ (fs S rest : List Packet),
      (S ++ fs ++ rest).Perm (sendSplitPacket I T p) → rest ≠ [] →
      runReassembler T fs (bufsOf I S) = (bufsOf I (S ++ fs), []) := by
  intro fs
  induction fs with
  | nil =>
      intro S rest hperm hrest
      simp [runReassembler]
  | cons f fs ih =>
      intro S rest hperm hrest
      have hperm1 : (S ++ f :: (fs ++ rest)).Perm (sendSplitPacket I T p) := by
        simpa [List.append_assoc] using hperm
      have hne : fs ++ rest ≠ [] := by
        simp [hrest]
      have hstep := reassemblerStep_mid I T p S f (fs ++ rest) hperm1 hne
      have hperm2 : ((S ++ [f]) ++ fs ++ rest).Perm (sendSplitPacket I T p) := by
        simpa [List.append_assoc] using hperm
      have hrun := ih (S ++ [f]) rest hperm2 hrest
      simp only [runReassembler, hstep, hrun]
      simp [List.append_assoc]

theorem runReassembler_roundtrip (I T : String) (p : List Nat)
    (l : List Packet) (hl : l.Perm (sendSplitPacket I T p)) :
    runReassembler T l [] = ([], [p]) := by
  rcases List.eq_nil_or_concat l with hnil | ⟨l', f, rfl⟩
  · subst hnil
    exfalso
    have hlen := hl.length_eq
    have hpos : 0 < (sendSplitPacket I T p).length := by
      simpa [sendSplitPacket] using length_splitFrom_pos I T 0 p
    simp at hlen
    omega
  · rw [List.concat_eq_append] at hl
    have hmid0 := runReassembler_mid I T p l' [] [f]
      (by simpa using hl) (by simp)
    rw [bufsOf_nil, List.nil_append] at hmid0
    have hfin := reassemblerStep_final I T p l' f hl
    rw [List.concat_eq_append, runReassembler_append, hmid0]
    simp only [runReassembler, hfin]
    simp [runReassembler]

end RestfulRtc

namespace RestfulRtc

/-! ## Correlator (`responseChannels`) and `httpHandler`

`httpHandler` stores an unbuffered `chan *ForwardedResponse` under the
fresh request id (`responseChannels.Store`) and removes it with `defer
responseChannels.Delete(req.ID)` when it returns.  The data handler
delivers by `responseChannels.Load(resp.ID)` followed by `ch <- &resp`; a
successful send rendezvouses with the waiting handler, which then returns
and runs its deferred delete.  The sequential semantics of that rendezvous
is modelled below: a successful delivery hands the value to the waiter and
removes the pending entry; a delivery with no registered channel drops the
value. -/

/-- Correlator state: `pending` holds the ids with a registered response
channel (the keys of `responseChannels`); `delivered` records, in order,
every value actually handed to a waiting handler. -/
structure Correlator where
  pending : List String
  delivered : List (String × ForwardedResponse)
deriving DecidableEq, Repr

/-- Correlator with no pending calls. -/
def Correlator.empty : Correlator := ⟨[], []⟩

/-- `responseChannels.Store(req.ID, ch)` in `httpHandler` (fresh uuid
ids, so no overwrite occurs). -/
def register (id : String) (c : Correlator) : Correlator :=
  { c with pending := id :: c.pending }

/-- The data handler's delivery: `responseChannels.Load(resp.ID)` plus the
channel send, with the waiter's deferred `Delete` of its entry.  Returns
whether the value reached a waiter, and the new state. -/
def deliver (id : String) (v : ForwardedResponse) (c : Correlator) :
    Bool × Correlator :=
  if id ∈ c.pending then
    (true, ⟨c.pending.erase id, c.delivered ++ [(id, v)]⟩)
  else
    (false, c)

/-- The `time.After(30 * time.Second)` deadline in `httpHandler`. -/
def responseDeadlineSeconds : Nat := 30

/-- Reply written to the external HTTP caller. -/
structure HttpReply where
  status : Nat
  body : List Nat
deriving DecidableEq, Repr

/-- The `select` in `httpHandler`: a response delivered strictly before
the deadline wins, otherwise the `time.After` timer fires.  `arrival` is
the delivery offered to the channel, tagged with its arrival time in
seconds (`none` = no response ever arrives). -/
def httpAwait (arrival : Option (Nat × ForwardedResponse)) :
    Option ForwardedResponse :=
  match arrival with
  | some (t, r) => if t < responseDeadlineSeconds then some r else none
  | none => none

/-- Tail of `httpHandler` after the request frames were sent: wait on the
channel against the 30-second timer; on delivery copy the status code and
body to the caller; on timeout `http.Error(w, "Request timed out",
http.StatusGatewayTimeout)` (status 504).  In both branches the handler
returns, so the deferred `responseChannels.Delete(req.ID)` removes the
pending entry. -/
def httpHandlerFinish (reqId : String)
    (arrival : Option (Nat × ForwardedResponse)) (c : Correlator) :
    HttpReply × Correlator :=
  match httpAwait arrival with
  | some resp =>
      (⟨resp.statusCode, resp.body⟩,
       { c with pending := c.pending.erase reqId })
  | none =>
      (⟨504, asciiBytes "Request timed out"⟩,
       { c with pending := c.pending.erase reqId })

/-! ## Endpoint execution (`executeRequest`, `handleAssembledRequest`) -/

/-- Outcome of the endpoint's downstream HTTP call in `executeRequest`:
the forwarding target's reply, or one of the three failure points
(`http.NewRequest` error, `client.Do` error, `io.ReadAll` error). -/
inductive DownstreamOutcome where
  | success (statusCode : Nat) (headers : List (String × List String))
      (body : List Nat)
  | buildFailure
  | connectFailure
  | readFailure
deriving DecidableEq, Repr

/-- `errorResponse(id, code, message)`. -/
def errorResponse (id : String) (code : Nat) (message : String) :
    ForwardedResponse :=
  ⟨id, code, [("Content-Type", ["text/plain"])], asciiBytes message⟩

/-- `executeRequest(req)` with the downstream HTTP call abstracted into
`outcome`. -/
def executeRequest (req : ForwardedRequest) (outcome : DownstreamOutcome) :
    ForwardedResponse :=
  match outcome with
  | .buildFailure => errorResponse req.id 500 "Failed to create request"
  | .connectFailure => errorResponse req.id 502 "Failed to execute request"
  | .readFailure => errorResponse req.id 500 "Failed to read response body"
  | .success s h b => ⟨req.id, s, h, b⟩

/-- `handleAssembledRequest`: decode the reassembled bytes as a
ForwardedRequest (`decodeReq`; `none` = "Error unmarshaling full request",
logged, nothing sent), execute downstream, marshal the ForwardedResponse
(`encodeResp`) and send it back through the splitter tagged
`PacketTypeResponse` under the same id.  Returns the frames handed to
`conn.Send`. -/
def handleAssembledRequest (decodeReq : List Nat → Option ForwardedRequest)
    (encodeResp : ForwardedResponse → List Nat)
    (outcome : DownstreamOutcome) (data : List Nat) : List Packet :=
  match decodeReq data with
  | none => []
  | some req =>
      sendSplitPacket req.id PacketTypeResponse
        (encodeResp (executeRequest req outcome))

/-! ## Full per-role data handlers -/

/-- Gateway mutable state: the `responseBuffers` map and the correlator
(`responseChannels` plus the record of values handed to waiters). -/
structure GatewayState where
  responseBuffers : List (String × ReassemblyBuffer)
  corr : Correlator
deriving DecidableEq, Repr

/-- The gateway `conn.On("data", ...)` handler.  `json.Unmarshal` of the
raw frame is abstracted as the `Option Packet` input (`none` = unmarshal
error: log and return).  Then the type guard and reassembly of
`reassemblerStep`; on completion the buffer is decoded as a
ForwardedResponse (`decodeResp`; `none` = "Error unmarshaling full
response": log and return) and handed to the waiting HTTP handler through
the correlator.  The second component reports the reassembled buffer when
this frame completed a message. -/
def gatewayStep (decodeResp : List Nat → Option ForwardedResponse)
    (input : Option Packet) (st : GatewayState) :
    GatewayState × Option (List Nat) :=
  match input with
  | none => (st, none)
  | some p =>
      match reassemblerStep PacketTypeResponse p st.responseBuffers with
      | (bufs1, none) => ({ st with responseBuffers := bufs1 }, none)
      | (bufs1, some data) =>
          match decodeResp data with
          | none => ({ st with responseBuffers := bufs1 }, some data)
          | some resp =>
              ({ responseBuffers := bufs1,
                 corr := (deliver resp.id resp st.corr).2 }, some data)

/-- The endpoint `conn.On("data", ...)` handler: as the gateway but
guarding on `PacketTypeRequest`; a completed message is handed to
`handleAssembledRequest` in a fresh goroutine (reported here as the
completion output). -/
def endpointStep (input : Option Packet)
    (bufs : List (String × ReassemblyBuffer)) :
    List (String × ReassemblyBuffer) × Option (List Nat) :=
  match input with
  | none => (bufs, none)
  | some p => reassemblerStep PacketTypeRequest p bufs

end RestfulRtc

namespace RestfulRtc

/-! ## Claim theorems -/

/-- C1: for every byte payload `p` (including the empty payload and
payloads larger than MaxChunkSize), feeding all frames produced by the
splitter for `(id, kind, p)` into the reassembler, in any arrival order,
returns exactly `p` once (the concatenation of stored payloads in
ascending sequence order), and the reassembler produces no output on any
frame delivered before the full set `[0, terminal]` is present. -/
theorem splitter_reassembler_roundtrip (id kind : String) (p : List Nat)
    (l : List Packet) (hl : l.Perm (sendSplitPacket id kind p)) :
    (runReassembler kind l []).2 = [p] ∧
      ∀ l1 l2, l = l1 ++ l2 → l2 ≠ [] →
        (runReassembler kind l1 []).2 = [] := by
  constructor
  · rw [runReassembler_roundtrip id kind p l hl]
  · intro l1 l2 hsplit hl2
    subst hsplit
    have h := runReassembler_mid id kind p l1 [] l2 (by simpa using hl) hl2
    rw [bufsOf_nil] at h
    rw [h]

/-- Witness for C1: the split of `[3, 1, 4]` fed back in yields exactly
`[3, 1, 4]`. -/
theorem splitter_reassembler_roundtrip_witness :
    (runReassembler "response"
      (sendSplitPacket "w1" "response" [3, 1, 4]) []).2 = [[3, 1, 4]] :=
  (splitter_reassembler_roundtrip "w1" "response" [3, 1, 4]
    (sendSplitPacket "w1" "response" [3, 1, 4]) (List.Perm.refl _)).1

/-- C2: `sendSplitPacket` produces `ceil(len(p)/MaxChunkSize)` frames
(exactly one zero-length frame when `p` is empty), each payload has
length at most MaxChunkSize, sequence numbers are contiguous `0..n-1`,
`is_last` is true on the final frame only, and a payload whose length is
an exact multiple of MaxChunkSize yields `len(p)/MaxChunkSize` frames
with no zero-length frame. -/
theorem sendSplitPacket_contract (id kind : String) (p : List Nat) :
    (p = [] → (sendSplitPacket id kind p).map Packet.payload = [[]]) ∧
    (p ≠ [] → (sendSplitPacket id kind p).length
        = (p.length + MaxChunkSize - 1) / MaxChunkSize) ∧
    (∀ g ∈ sendSplitPacket id kind p, g.payload.length ≤ MaxChunkSize) ∧
    ((sendSplitPacket id kind p).map Packet.sequence =
      (List.range (sendSplitPacket id kind p).length).map
        (fun (j : Nat) => (j : Int))) ∧
    ((sendSplitPacket id kind p).map Packet.isLast =
      (List.range (sendSplitPacket id kind p).length).map
        (fun j => decide (j = (sendSplitPacket id kind p).length - 1))) ∧
    (MaxChunkSize ∣ p.length → p ≠ [] →
      (sendSplitPacket id kind p).length = p.length / MaxChunkSize ∧
        ∀ g ∈ sendSplitPacket id kind p, g.payload ≠ []) := by
  refine ⟨?_, ?_, ?_, ?_, ?_, ?_⟩
  · intro hp
    subst hp
    rw [sendSplitPacket, splitFrom_last (by simp)]
    rfl
  · intro hp
    have h := length_splitFrom id kind 0 p
    rw [sendSplitPacket, h,
      if_neg (by simpa using fun h0 => hp (List.length_eq_zero.mp h0))]
  · exact payload_length_le_splitFrom id kind 0 p
  · exact map_sequence_sendSplit id kind p
  · simpa [sendSplitPacket] using map_isLast_splitFrom id kind 0 p
  · intro hdvd hp
    constructor
    · have h := length_splitFrom id kind 0 p
      rw [sendSplitPacket, h,
        if_neg (by simpa using fun h0 => hp (List.length_eq_zero.mp h0))]
      obtain ⟨k, hk⟩ := hdvd
      have hM : MaxChunkSize = 16384 := rfl
      have hk0 : 0 < k := by
        rcases Nat.eq_zero_or_pos k with h0 | h0
        · subst h0
          simp only [Nat.mul_zero] at hk
          exact absurd (List.length_eq_zero.mp hk) hp
        · exact h0
      simp only [hM] at hk ⊢
      omega
    · exact payload_ne_nil_splitFrom id kind 0 p hp

/-- Witness for C2: the empty payload yields one zero-length frame, and a
one-byte payload yields one frame. -/
theorem sendSplitPacket_contract_witness :
    (sendSplitPacket "w2" "request" []).map Packet.payload = [[]] ∧
    (sendSplitPacket "w2" "request" [5]).length = 1 := by
  constructor
  · exact (sendSplitPacket_contract "w2" "request" []).1 rfl
  · have h := (sendSplitPacket_contract "w2" "request" [5]).2.1 (by simp)
    rw [h]
    norm_num [MaxChunkSize]

/-- C8: a 40 KB payload with MaxChunkSize 16 KB splits into exactly 3
frames of payload lengths 16384, 16384, 8192 with sequence numbers
0, 1, 2, of which only frame 2 has `is_last = true`, and reassembling any
permutation of these 3 frames yields the original 40 KB buffer. -/
theorem split_40kb_scenario (id kind : String) (p : List Nat)
    (hp : p.length = 40960) :
    ((sendSplitPacket id kind p).map (fun g => g.payload.length)
        = [16384, 16384, 8192]) ∧
    ((sendSplitPacket id kind p).map Packet.sequence = [0, 1, 2]) ∧
    ((sendSplitPacket id kind p).map Packet.isLast = [false, false, true]) ∧
    ∀ l, l.Perm (sendSplitPacket id kind p) →
      (runReassembler kind l []).2 = [p] := by
  have hM : MaxChunkSize = 16384 := rfl
  have h1 : ¬ p.length ≤ MaxChunkSize := by omega
  have h2 : ¬ (p.drop MaxChunkSize).length ≤ MaxChunkSize := by
    simp only [List.length_drop]
    omega
  have h3 : ((p.drop MaxChunkSize).drop MaxChunkSize).length
      ≤ MaxChunkSize := by
    simp only [List.length_drop]
    omega
  have hsplit : sendSplitPacket id kind p =
      [⟨id, kind, ((0 : Nat) : Int), false, p.take MaxChunkSize⟩,
       ⟨id, kind, ((1 : Nat) : Int), false,
         (p.drop MaxChunkSize).take MaxChunkSize⟩,
       ⟨id, kind, ((2 : Nat) : Int), true,
         (p.drop MaxChunkSize).drop MaxChunkSize⟩] := by
    rw [sendSplitPacket, splitFrom_cons h1, splitFrom_cons h2,
      splitFrom_last h3]
  refine ⟨?_, ?_, ?_, ?_⟩
  · rw [hsplit]
    simp only [List.map_cons, List.map_nil, List.length_take,
      List.length_drop, hM, hp]
    norm_num
  · rw [hsplit]
    simp
  · rw [hsplit]
    simp
  · intro l hperm
    rw [runReassembler_roundtrip id kind p l hperm]

/-- Witness for C8: the 40960-byte zero payload. -/
theorem split_40kb_scenario_witness :
    (sendSplitPacket "w8" "response" (List.replicate 40960 0)).map
      (fun g => g.payload.length) = [16384, 16384, 8192] :=
  (split_40kb_scenario "w8" "response" (List.replicate 40960 0)
    (by rw [List.length_replicate])).1

end RestfulRtc

namespace RestfulRtc

/-- C4 counterexample: the single-frame message "c4" (empty-ish payload
`[7]`, sequence 0, `is_last`) completes at the gateway handler and its
ReassemblyState is removed; re-delivering the very same frame afterwards
completes a second time for the same id, contradicting the claim that a
re-delivered frame neither resurrects state nor counts toward a new
completion. -/
theorem redelivery_counterexample :
    (gatewayStep (fun _ => none) (some ⟨"c4", "response", 0, true, [7]⟩)
        ⟨[], Correlator.empty⟩).1.responseBuffers = [] ∧
    (gatewayStep (fun _ => none) (some ⟨"c4", "response", 0, true, [7]⟩)
        (gatewayStep (fun _ => none) (some ⟨"c4", "response", 0, true, [7]⟩)
          ⟨[], Correlator.empty⟩).1).2 = some [7] := by
  decide

/-- C4 amended: once a message completes, its ReassemblyState is removed,
but a frame of it re-delivered afterwards is treated as the start of a
fresh reassembly of the same id: the handler re-creates a ReassemblyState
via LoadOrStore (a non-final frame leaves a new live buffer for the id),
and if the re-delivered frames alone form a complete set — as with the
single frame of a one-frame message — the same id completes a second time
with the same payload. -/
theorem redelivery_after_completion (kind : String) (f : Packet)
    (hft : f.type = kind) (hlast : f.isLast = true) (hseq : f.sequence = 0) :
    (reassemblerStep kind f []).1 = [] ∧
    (reassemblerStep kind f []).2 = some f.payload ∧
    (reassemblerStep kind f ((reassemblerStep kind f []).1)).2
      = some f.payload ∧
    ∀ g : Packet, g.type = kind → g.isLast = false →
      (reassemblerStep kind g []).1
        = [(g.id, ⟨[(g.sequence, g.payload)], -1⟩)] := by
  have hstep : reassemblerStep kind f [] = ([], some f.payload) := by
    rw [reassemblerStep, if_neg (by simp [hft])]
    simp only [lookupBuf, Option.getD_none, NewReassemblyBuffer, hseq, hlast,
      insertPacket, if_pos rfl]
    rw [if_pos (by norm_num)]
    simp [eraseBuf, reassemble, List.insertionSort, List.orderedInsert,
      lookupSeq]
  refine ⟨by rw [hstep], by rw [hstep], by rw [hstep, hstep], ?_⟩
  intro g hgt hgl
  rw [reassemblerStep, if_neg (by simp [hgt])]
  simp only [lookupBuf, Option.getD_none, NewReassemblyBuffer, hgl,
    insertPacket]
  rw [if_neg (by simp)]
  simp [insertBuf]

/-- Witness for the amended C4 theorem. -/
theorem redelivery_after_completion_witness :
    (reassemblerStep "response" ⟨"c4w", "response", 0, true, [9]⟩
        ((reassemblerStep "response"
          ⟨"c4w", "response", 0, true, [9]⟩ []).1)).2 = some [9] :=
  (redelivery_after_completion "response"
    ⟨"c4w", "response", 0, true, [9]⟩ rfl rfl rfl).2.2.1

/-- C3: `deliver(id, v)` looks up the pending call by id; if present it
hands `v` to the single-use slot, the entry is removed, and it reports
delivered; a second deliver for the same id after a successful first one
reports not-delivered and does not invoke the original waiter again (the
record of values handed to waiters does not grow). -/
theorem deliver_exactly_once (c : Correlator) (id : String)
    (v w : ForwardedResponse) (hnd : c.pending.Nodup)
    (hid : id ∈ c.pending) :
    (deliver id v c).1 = true ∧
    (deliver id v c).2.delivered = c.delivered ++ [(id, v)] ∧
    id ∉ (deliver id v c).2.pending ∧
    (deliver id w (deliver id v c).2).1 = false ∧
    (deliver id w (deliver id v c).2).2 = (deliver id v c).2 := by
  have h1 : deliver id v c
      = (true, ⟨c.pending.erase id, c.delivered ++ [(id, v)]⟩) := by
    rw [deliver, if_pos hid]
  have hnotin : id ∉ c.pending.erase id := hnd.not_mem_erase
  have h2 : deliver id w
        (⟨c.pending.erase id, c.delivered ++ [(id, v)]⟩ : Correlator)
      = (false, ⟨c.pending.erase id, c.delivered ++ [(id, v)]⟩) := by
    rw [deliver, if_neg hnotin]
  rw [h1]
  exact ⟨rfl, rfl, hnotin, by rw [h2], by rw [h2]⟩

/-- Witness for C3. -/
theorem deliver_exactly_once_witness :
    (deliver "x" ⟨"x", 200, [], []⟩ ⟨["x"], []⟩).1 = true ∧
    (deliver "x" ⟨"x", 204, [], []⟩
        (deliver "x" ⟨"x", 200, [], []⟩ ⟨["x"], []⟩).2).1 = false := by
  have h := deliver_exactly_once ⟨["x"], []⟩ "x" ⟨"x", 200, [], []⟩
      ⟨"x", 204, [], []⟩ (by simp) (by simp)
  exact ⟨h.1, h.2.2.2.1⟩

/-- C5: if an initiator registers a pending call and no response is
delivered within the 30-second deadline (`responseDeadlineSeconds`), the
external HTTP caller receives 504 Gateway Timeout with body "Request
timed out", the pending call is deregistered (the deferred
`responseChannels.Delete`), and a subsequent late deliver for that id is
a no-op. -/
theorem timeout_deregisters_pending (c : Correlator) (reqId : String)
    (arrival : Option (Nat × ForwardedResponse)) (v : ForwardedResponse)
    (hns : reqId ∉ c.pending) (hnone : httpAwait arrival = none) :
    (httpHandlerFinish reqId arrival (register reqId c)).1
        = ⟨504, asciiBytes "Request timed out"⟩ ∧
    (httpHandlerFinish reqId arrival (register reqId c)).2.pending
        = c.pending ∧
    reqId ∉ (httpHandlerFinish reqId arrival (register reqId c)).2.pending ∧
    (deliver reqId v
        (httpHandlerFinish reqId arrival (register reqId c)).2).1 = false ∧
    (deliver reqId v
        (httpHandlerFinish reqId arrival (register reqId c)).2).2
      = (httpHandlerFinish reqId arrival (register reqId c)).2 := by
  have hfin : httpHandlerFinish reqId arrival (register reqId c)
      = (⟨504, asciiBytes "Request timed out"⟩, c) := by
    rw [httpHandlerFinish, hnone]
    simp [register, List.erase_cons_head]
  have hdel : deliver reqId v c = (false, c) := by
    rw [deliver, if_neg hns]
  rw [hfin]
  exact ⟨rfl, rfl, hns, by rw [hdel], by rw [hdel]⟩

/-- Witness for C5: a response arriving exactly at the 30-second deadline
loses the select race. -/
theorem timeout_deregisters_pending_witness :
    (httpHandlerFinish "x" (some (30, ⟨"x", 200, [], []⟩))
        (register "x" Correlator.empty)).1
      = ⟨504, asciiBytes "Request timed out"⟩ :=
  (timeout_deregisters_pending Correlator.empty "x"
    (some (30, ⟨"x", 200, [], []⟩)) ⟨"x", 200, [], []⟩
    (by simp [Correlator.empty]) (by decide)).1

/-- C6: for every id with no registered pending call, `deliver(id, v)`
reports not-delivered and leaves the correlator unchanged — the
reassembled response is discarded silently, and `deliver` is a total
function (it cannot raise). -/
theorem deliver_unknown_id (c : Correlator) (id : String)
    (v : ForwardedResponse) (h : id ∉ c.pending) :
    (deliver id v c).1 = false ∧ (deliver id v c).2 = c := by
  rw [deliver, if_neg h]
  exact ⟨rfl, rfl⟩

/-- Witness for C6. -/
theorem deliver_unknown_id_witness :
    (deliver "nonexistent" ⟨"n", 200, [], []⟩ Correlator.empty).1 = false :=
  (deliver_unknown_id Correlator.empty "nonexistent" ⟨"n", 200, [], []⟩
    (by simp [Correlator.empty])).1

/-- C7: when the downstream HTTP execution fails (`client.Do` error —
target unreachable), the responder produces a ForwardedResponse carrying
status 502 with the human-readable body "Failed to execute request", and
`handleAssembledRequest` transmits it normally through the splitter
rather than treating it as a transport failure. -/
theorem downstream_failure_becomes_502
    (decodeReq : List Nat → Option ForwardedRequest)
    (encodeResp : ForwardedResponse → List Nat) (data : List Nat)
    (req : ForwardedRequest) (hdec : decodeReq data = some req) :
    executeRequest req .connectFailure
        = errorResponse req.id 502 "Failed to execute request" ∧
    (executeRequest req .connectFailure).statusCode = 502 ∧
    (executeRequest req .connectFailure).body
        = asciiBytes "Failed to execute request" ∧
    handleAssembledRequest decodeReq encodeResp .connectFailure data
        = sendSplitPacket req.id PacketTypeResponse
            (encodeResp
              (errorResponse req.id 502 "Failed to execute request")) := by
  refine ⟨rfl, rfl, rfl, ?_⟩
  rw [handleAssembledRequest, hdec]
  rfl

/-- Witness for C7. -/
theorem downstream_failure_becomes_502_witness :
    (executeRequest ⟨"r", "GET", "/", "", [], []⟩ .connectFailure).statusCode
      = 502 :=
  (downstream_failure_becomes_502
    (fun _ => some ⟨"r", "GET", "/", "", [], []⟩) (fun r => r.body) []
    ⟨"r", "GET", "/", "", [], []⟩ rfl).2.1

/-- C9: an inbound frame whose Type field differs from the role's
expected kind (anything other than "response" at the gateway, anything
other than "request" at the endpoint) makes the data handler return
early: every reassembly buffer and the correlator map are unchanged and
no output is produced. -/
theorem type_guard_returns_early (d : List Nat → Option ForwardedResponse)
    (p : Packet) (st : GatewayState)
    (bufs : List (String × ReassemblyBuffer)) :
    (p.type ≠ PacketTypeResponse → gatewayStep d (some p) st = (st, none)) ∧
    (p.type ≠ PacketTypeRequest → endpointStep (some p) bufs = (bufs, none)) := by
  constructor
  · intro h
    have hr : reassemblerStep PacketTypeResponse p st.responseBuffers
        = (st.responseBuffers, none) := by
      rw [reassemblerStep, if_pos h]
    simp [gatewayStep, hr]
  · intro h
    have hr : reassemblerStep PacketTypeRequest p bufs = (bufs, none) := by
      rw [reassemblerStep, if_pos h]
    simp [endpointStep, hr]

/-- Witness for C9: a frame of type "bogus" is dropped by both roles. -/
theorem type_guard_returns_early_witness :
    gatewayStep (fun _ => none) (some ⟨"w9", "bogus", 0, true, []⟩)
        ⟨[], Correlator.empty⟩ = (⟨[], Correlator.empty⟩, none) ∧
    endpointStep (some ⟨"w9", "bogus", 0, true, []⟩) [] = ([], none) := by
  have h := type_guard_returns_early (fun _ => none)
      ⟨"w9", "bogus", 0, true, []⟩ ⟨[], Correlator.empty⟩ []
  exact ⟨h.1 (by decide), h.2 (by decide)⟩

/-- C10: an inbound byte blob that does not decode as a Packet
(`json.Unmarshal` fails) makes the data handler log and return without
raising: every reassembly buffer and the correlator map are unchanged and
no output is produced, at both roles. -/
theorem unmarshal_failure_returns_early
    (d : List Nat → Option ForwardedResponse) (st : GatewayState)
    (bufs : List (String × ReassemblyBuffer)) :
    gatewayStep d none st = (st, none)
      ∧ endpointStep none bufs = (bufs, none) :=
  ⟨rfl, rfl⟩

end RestfulRtc
